import Mathlib

/-!
# Verification of the playwright-rust core engine

A shallow embedding of the transport / object-graph / dispatch substrate of
`playwright-rust` (`src/imp/core/connection.rs`, `src/imp/core/transport.rs`,
`src/imp/browser.rs`), together with proofs about the properties its
specification states.

Modelling conventions:
* `HashMap` becomes an association list with the usual lookup/insert/erase
  operations; all tables the program builds have pairwise distinct keys.
* `Weak`/`Arc` references into the object graph become `Guid` handles resolved
  through `Context.objects`, following the arena+handle design the spec itself
  prescribes ("model as arena (Context's table) + handle (Guid), with every
  edge a weak lookup through the arena").  A weak upgrade succeeds exactly when
  the guid is still in the strong table.
* The caller-side shared cell of a pending call (held behind `Weak` in the
  Rust `WaitPlaces`) is stored inline in the callback entry: the entry is the
  unique observation point of that shared `Arc`, and `none` in the outer
  `Option` models a dropped weak reference.
* `&mut self` methods that can fail become `State → Except Error Unit × State`
  so that partial mutation before an error remains observable.
* i32 arithmetic on the request-id counter is `Int` with explicit two's
  complement wrapping (`wrap32`).
-/

set_option autoImplicit false
set_option linter.unusedSectionVars false

namespace PlaywrightRust

/-! ## Association-list maps (model of `std::collections::HashMap`) -/

section AssocMap

variable {κ : Type} {β : Type} [DecidableEq κ]

/-- `HashMap::get`: value of the first (with nodup keys: only) binding of `k`. -/
def lookupA : List (κ × β) → κ → Option β
  | [], _ => none
  | (k0, v) :: m, k => if k0 = k then some v else lookupA m k

/-- `HashMap::insert`: replace the binding of `k` if present, otherwise add it. -/
def insertA : List (κ × β) → κ → β → List (κ × β)
  | [], k, v => [(k, v)]
  | (k0, v0) :: m, k, v => if k0 = k then (k, v) :: m else (k0, v0) :: insertA m k v

/-- `HashMap::remove`: drop the binding of `k` (the first one, with nodup keys the only one). -/
def eraseA : List (κ × β) → κ → List (κ × β)
  | [], _ => []
  | (k0, v0) :: m, k => if k0 = k then m else (k0, v0) :: eraseA m k

/-- Update the value bound to `k` in place (mutation through a borrowed entry). -/
def updateA : List (κ × β) → κ → (β → β) → List (κ × β)
  | [], _, _ => []
  | (k0, v0) :: m, k, f => if k0 = k then (k0, f v0) :: m else (k0, v0) :: updateA m k f

/-- The key set of the map, in binding order. -/
def keysA (m : List (κ × β)) : List κ := m.map Prod.fst

@[simp] theorem lookupA_nil (k : κ) : lookupA ([] : List (κ × β)) k = none := rfl

theorem lookupA_cons (k0 : κ) (v : β) (m : List (κ × β)) (k : κ) :
    lookupA ((k0, v) :: m) k = if k0 = k then some v else lookupA m k := rfl

@[simp] theorem keysA_nil : keysA ([] : List (κ × β)) = [] := rfl

@[simp] theorem keysA_cons (k0 : κ) (v : β) (m : List (κ × β)) :
    keysA ((k0, v) :: m) = k0 :: keysA m := rfl

theorem not_mem_keys_head {k k0 : κ} {v0 : β} {m : List (κ × β)}
    (h : k ∉ keysA ((k0, v0) :: m)) : k0 ≠ k :=
  fun hc => h (List.mem_cons.mpr (Or.inl hc.symm))

theorem not_mem_keys_tail {k k0 : κ} {v0 : β} {m : List (κ × β)}
    (h : k ∉ keysA ((k0, v0) :: m)) : k ∉ keysA m :=
  fun hc => h (List.mem_cons.mpr (Or.inr hc))

theorem lookupA_append_of_not_mem (A B : List (κ × β)) (k : κ) (h : k ∉ keysA A) :
    lookupA (A ++ B) k = lookupA B k := by
  induction A with
  | nil => simp
  | cons p A ih =>
    obtain ⟨k0, v0⟩ := p
    rw [List.cons_append, lookupA_cons, if_neg (not_mem_keys_head h)]
    exact ih (not_mem_keys_tail h)

theorem lookupA_updateA_self (m : List (κ × β)) (k : κ) (f : β → β) (v : β)
    (h : lookupA m k = some v) : lookupA (updateA m k f) k = some (f v) := by
  induction m with
  | nil => simp at h
  | cons p m ih =>
    obtain ⟨k0, v0⟩ := p
    by_cases hk : k0 = k
    · rw [lookupA_cons, if_pos hk] at h
      cases h
      simp only [updateA, if_pos hk, lookupA_cons, if_pos hk]
    · rw [lookupA_cons, if_neg hk] at h
      simp only [updateA, if_neg hk, lookupA_cons, if_neg hk]
      exact ih h

theorem lookupA_updateA_ne (m : List (κ × β)) (k k' : κ) (f : β → β) (h : k' ≠ k) :
    lookupA (updateA m k f) k' = lookupA m k' := by
  induction m with
  | nil => rfl
  | cons p m ih =>
    obtain ⟨k0, v0⟩ := p
    by_cases hk : k0 = k
    · have hne : k0 ≠ k' := fun hc => h (hc ▸ hk)
      simp only [updateA, if_pos hk, lookupA_cons, if_neg hne]
    · simp only [updateA, if_neg hk, lookupA_cons]
      by_cases hk' : k0 = k'
      · rw [if_pos hk', if_pos hk']
      · rw [if_neg hk', if_neg hk']
        exact ih

theorem updateA_of_fixed (m : List (κ × β)) (k : κ) (f : β → β) (v : β)
    (hv : lookupA m k = some v) (hf : f v = v) : updateA m k f = m := by
  induction m with
  | nil => simp at hv
  | cons p m ih =>
    obtain ⟨k0, v0⟩ := p
    by_cases hk : k0 = k
    · rw [lookupA_cons, if_pos hk] at hv
      cases hv
      simp only [updateA, if_pos hk, hf]
    · rw [lookupA_cons, if_neg hk] at hv
      simp only [updateA, if_neg hk]
      rw [ih hv]

theorem keysA_updateA (m : List (κ × β)) (k : κ) (f : β → β) :
    keysA (updateA m k f) = keysA m := by
  induction m with
  | nil => rfl
  | cons p m ih =>
    obtain ⟨k0, v0⟩ := p
    by_cases hk : k0 = k
    · simp only [updateA, if_pos hk, keysA_cons]
    · simp only [updateA, if_neg hk, keysA_cons]
      exact congrArg (k0 :: ·) ih

theorem insertA_of_not_mem (m : List (κ × β)) (k : κ) (v : β) (h : k ∉ keysA m) :
    insertA m k v = m ++ [(k, v)] := by
  induction m with
  | nil => rfl
  | cons p m ih =>
    obtain ⟨k0, v0⟩ := p
    have hne : ¬ (k0 = k) := not_mem_keys_head h
    simp only [insertA, if_neg hne, List.cons_append]
    exact congrArg ((k0, v0) :: ·) (ih (not_mem_keys_tail h))

theorem eraseA_append_of_not_mem (A : List (κ × β)) (k : κ) (v : β) (B : List (κ × β))
    (h : k ∉ keysA A) : eraseA (A ++ (k, v) :: B) k = A ++ B := by
  induction A with
  | nil => simp [eraseA]
  | cons p A ih =>
    obtain ⟨k0, v0⟩ := p
    rw [List.cons_append]
    simp only [eraseA, if_neg (not_mem_keys_head h)]
    exact congrArg ((k0, v0) :: ·) (ih (not_mem_keys_tail h))

theorem lookupA_map_snd (m : List (κ × β)) (f : β → β) (k : κ) :
    lookupA (m.map (fun kv => (kv.1, f kv.2))) k = (lookupA m k).map f := by
  induction m with
  | nil => rfl
  | cons p m ih =>
    obtain ⟨k0, v0⟩ := p
    by_cases hk : k0 = k
    · simp only [List.map_cons, lookupA_cons, if_pos hk, Option.map_some']
    · simp only [List.map_cons, lookupA_cons, if_neg hk]
      exact ih

end AssocMap

theorem keysA_map_snd {κ β : Type} (m : List (κ × β)) (f : β → β) :
    keysA (m.map (fun kv => (kv.1, f kv.2))) = keysA m := by
  induction m with
  | nil => rfl
  | cons p m ih =>
    simp only [List.map_cons, keysA, List.map] at ih ⊢
    rw [ih]

/-! ## JSON values and wire messages -/

/-- Opaque string identifier of a remote object (`Str<Guid>` in the source). -/
abbrev Guid := String

/-- Model of `serde_json::Value`. -/
inductive Value where
  | null
  | bool (b : Bool)
  | num (n : Int)
  | str (s : String)
  | arr (xs : List Value)
  | obj (fields : List (String × Value))

/-- Modelled from the spec: the structured remote error carried by an error
response (`ErrorMessage`, defined in `message.rs` which is not part of the
sources; only its role as an opaque remote-reported error is used here). -/
structure ErrorMessage where
  message : String

/-- `TransportError` from `transport.rs` (payloads of the underlying serde/io
errors are abstracted to tags). -/
inductive TransportError where
  | Serde
  | Io

/-- The `Error` enum of `connection.rs` (variants carrying foreign payloads are
kept as tags; `GuidNotFound` keeps its `Value` payload). -/
inductive Error where
  | Io
  | InitializationError
  | ReceiverClosed
  | InvalidParams
  | ObjectNotFound
  | Serde
  | Channel
  | Transport (e : TransportError)
  | CallbackNotFound
  | ErrorResponded (m : ErrorMessage)
  | NotObject
  | GuidNotFound (v : Value)
  | Timeout

/-- The two decoded message shapes (`Res` in `message.rs`, shape pinned by its
uses in `connection.rs`): a call result correlated by id, or an
event/creation/disposal message addressed by guid + method + params. -/
inductive Res where
  | result (id : Int) (body : Except ErrorMessage Value)
  | initial (guid : Guid) (method : String) (params : List (String × Value))

/-! ## Transport reader (`transport.rs`) -/

/-- `Reader`: the growable receive buffer over the child's stdout.  Bytes are
modelled as `Nat`s. -/
structure Reader where
  buf : List Nat

/-- The 4-byte little-endian length prefix (`u32::from_le_bytes`). -/
def leU32 (bs : List Nat) : Nat :=
  match bs with
  | [b0, b1, b2, b3] => b0 + 256 * b1 + 256 ^ 2 * b2 + 256 ^ 3 * b3
  | _ => 0

/-- `Reader::try_read`.  `decode` stands for `serde_json::from_slice`; `chunk`
is the byte sequence the single `stdout.read` call of this invocation returns
(`[]` models a zero-length read, i.e. the child process has exited; an
I/O-error return of `read` is propagated upstream and is not modelled here).
Faithful to the source: if the buffer holds a complete frame it is sliced out
(the buffer is advanced *before* decoding) and decoded; otherwise the chunk is
appended to the buffer and `none` ("no complete frame yet") is returned. -/
def Reader.try_read (decode : List Nat → Except TransportError Res)
    (r : Reader) (chunk : List Nat) :
    Except TransportError (Option Res) × Reader :=
  if 4 ≤ r.buf.length then
    let len := leU32 (r.buf.take 4)
    if 4 + len ≤ r.buf.length then
      let bytes := (r.buf.drop 4).take len
      let buf0 := r.buf.drop (4 + len)
      match decode bytes with
      | .error e => (.error e, { buf := buf0 })
      | .ok msg => (.ok (some msg), { buf := buf0 })
    else
      (.ok none, { buf := r.buf ++ chunk })
  else
    (.ok none, { buf := r.buf ++ chunk })

/-- One frame written by `Writer::send` (the `Req` envelope
`{guid, method, params, metadata, id}`). -/
structure SentFrame where
  guid : Guid
  method : String
  params : List (String × Value)
  metadata : Value
  id : Int

/-! ## Pending-call records (`WaitPlaces`, spec §4.6) -/

/-- `WaitMessageResult = Result<Result<Arc<Value>, Arc<ErrorMessage>>, Arc<Error>>`:
either a connection-level failure, or the remote outcome (value or remote
error). -/
abbrev WaitMessageResult := Except Error (Except ErrorMessage Value)

/-- Modelled from the spec: the pending-call record `WaitPlaces` (declared in
`message.rs`, absent from the sources; its shape — a weakly-held
single-assignment result cell and a weakly-held waker slot — is pinned by the
spec §4.6 and by the destructuring in `Context::respond_wait`).  The outer
`Option` is weak-reference aliveness (`none` = the caller's future was
dropped); the inner value is the cell contents / the stored waker (`Unit`
stands for a registered task waker). -/
structure WaitPlaces where
  value : Option (Option WaitMessageResult)
  waker : Option (Option Unit)

/-- `Context::respond_wait`: upgrade the value slot, then the waker slot; if
either fails the result is discarded; otherwise store the result in the cell
(waking the stored waker is an effect on the caller's task, invisible in this
state). -/
def respond_wait (p : WaitPlaces) (result : WaitMessageResult) : WaitPlaces :=
  match p.value with
  | none => p
  | some _ =>
    match p.waker with
    | none => p
    | some w => { value := some (some result), waker := some w }

/-! ## The object graph: `ChannelOwner` and the closed proxy union -/

/-- The addressable node record (`ChannelOwner`, declared in `remote_object.rs`
which is not part of the sources; its fields are pinned by the spec's data
model §3 and by every use in `connection.rs`/`browser.rs`).  Parent/child
edges are weak references, modelled as `Guid` handles resolved through the
strong table, per the spec's arena+handle design note. -/
structure ChannelOwner where
  guid : Guid
  typ : String
  parent : Option Guid
  children : List Guid
  initializer : Value

/-- `Variable` of `browser.rs`: the `Browser`'s mutable registry of its
`BrowserContext`s (weak refs, modelled as guids — guids are unique per object
for the lifetime of a `Connection`, so guid equality coincides with
`Weak::ptr_eq`) plus the one-shot liaison slot of an in-flight `new_context`
call (the `oneshot::Sender` payload is consumed by the awaiting caller's task,
outside this state, so only its presence is modelled). -/
structure Variable where
  contexts : List Guid
  is_remote : Bool
  pending_context : Option Unit

/-- Modelled from the spec: the closed tagged union of concrete proxy types
(`RemoteArc`, declared in `remote_object.rs`, absent from the sources).  The
variants the claims' code paths distinguish are kept; remaining protocol types
collapse into `Other`.  `Browser` carries its parsed version and mutable
`Variable` (from `browser.rs`, which is in the sources). -/
inductive RemoteArc where
  | Root (c : ChannelOwner)
  | Playwright (c : ChannelOwner)
  | BrowserType (c : ChannelOwner)
  | Browser (c : ChannelOwner) (version : String) (var : Variable)
  | BrowserContext (c : ChannelOwner)
  | Page (c : ChannelOwner)
  | Frame (c : ChannelOwner)
  | Other (c : ChannelOwner)

/-- `RemoteObject::channel()`. -/
def RemoteArc.channel : RemoteArc → ChannelOwner
  | .Root c => c
  | .Playwright c => c
  | .BrowserType c => c
  | .Browser c _ _ => c
  | .BrowserContext c => c
  | .Page c => c
  | .Frame c => c
  | .Other c => c

/-- Apply a mutation to the node's `ChannelOwner` (interior mutability of the
`children` list behind the node's lock). -/
def RemoteArc.withChannel (f : ChannelOwner → ChannelOwner) : RemoteArc → RemoteArc
  | .Root c => .Root (f c)
  | .Playwright c => .Playwright (f c)
  | .BrowserType c => .BrowserType (f c)
  | .Browser c v var => .Browser (f c) v var
  | .BrowserContext c => .BrowserContext (f c)
  | .Page c => .Page (f c)
  | .Frame c => .Frame (f c)
  | .Other c => .Other (f c)

/-- `Browser::try_new` (`browser.rs`): parse `Initializer { version }` from the
creation initializer; a missing or non-string `version` is a serde error. -/
def Browser.try_new (c : ChannelOwner) : Except Error RemoteArc :=
  match c.initializer with
  | .obj fields =>
    match lookupA fields "version" with
    | some (.str v) =>
      .ok (.Browser c v { contexts := [], is_remote := false, pending_context := none })
    | _ => .error .Serde
  | _ => .error .Serde

/-- `BrowserContext::try_new` (`browser_context.rs`): its
`Initializer { tracing?, requestContext? }` has only optional fields, so any
JSON object parses; the context's own auxiliary fields are not relevant to the
graph and are omitted. -/
def BrowserContext.try_new (c : ChannelOwner) : Except Error RemoteArc :=
  match c.initializer with
  | .obj _ => .ok (.BrowserContext c)
  | _ => .error .Serde

/-- Modelled from the spec: protocol type tags other than the ones the claims
distinguish ("a closed, exhaustive tag→constructor mapping"); the concrete
list lives in `remote_object.rs`, absent from the sources. -/
def otherTags : List String :=
  ["Request", "Response", "Route", "Worker", "Dialog", "Artifact", "CDPSession",
   "Tracing", "APIRequestContext", "WebSocket", "WebSocketRoute", "BindingCall",
   "ConsoleMessage", "JSHandle", "ElementHandle", "Stream", "WritableStream",
   "Selectors", "LocalUtils", "SocksSupport"]

/-- Modelled from the spec: `RemoteArc::try_new` (`remote_object.rs`, absent
from the sources) — the closed tag→constructor registry; "unknown tags are a
hard, fatal decode error, not ignored". -/
def RemoteArc.try_new (typ : String) (c : ChannelOwner) : Except Error RemoteArc :=
  if typ = "Playwright" then .ok (.Playwright c)
  else if typ = "BrowserType" then .ok (.BrowserType c)
  else if typ = "Browser" then Browser.try_new c
  else if typ = "BrowserContext" then BrowserContext.try_new c
  else if typ = "Page" then .ok (.Page c)
  else if typ = "Frame" then .ok (.Frame c)
  else if typ ∈ otherTags then .ok (.Other c)
  else .error .InvalidParams

/-- Modelled from the spec: `Method::is_create` — the method-name convention
marking "object created" (`message.rs`, absent from the sources). -/
def Method.is_create (m : String) : Bool := m = "__create__"

/-- Modelled from the spec: `Method::is_dispose` — the method-name convention
marking "object disposed" (`message.rs`, absent from the sources). -/
def Method.is_dispose (m : String) : Bool := m = "__dispose__"

/-! ## Context: the strong table, the pending-call table, dispatch -/

/-- `Context` (`connection.rs`): the strong object table, the i32 request-id
counter, the pending-call table, and the writer (modelled as the ordered list
of frames written to the child's stdin).  The self-weak `ctx` backref is
implicit in the state-passing style. -/
structure Context where
  objects : List (Guid × RemoteArc)
  id : Int
  callbacks : List (Int × WaitPlaces)
  sent : List SentFrame

/-- Two's-complement wrapping of `i32` addition results (`self.id += 1`). -/
def wrap32 (n : Int) : Int := (n + 2 ^ 31) % 2 ^ 32 - 2 ^ 31

/-- `RequestBody` (`message.rs`, absent from the sources; its fields are pinned
by the destructuring in `Context::send_message`). -/
structure RequestBody where
  guid : Guid
  method : String
  params : List (String × Value)
  metadata : Value
  place : WaitPlaces

/-- `Context::send_message`: allocate the next id, register the pending-call
record under it, then serialize and write the frame. -/
def Context.send_message (ctx : Context) (r : RequestBody) : Context :=
  let id := wrap32 (ctx.id + 1)
  { ctx with
    id := id
    callbacks := insertA ctx.callbacks id r.place
    sent := ctx.sent ++ [{ guid := r.guid, method := r.method, params := r.params,
                           metadata := r.metadata, id := id }] }

/-- `Context::notify_closed`: deliver the terminal error to every pending call
(through `respond_wait`, i.e. into every result cell still alive), then replace
the strong table by a fresh empty map. -/
def Context.notify_closed (ctx : Context) (e : Error) : Context :=
  { ctx with
    callbacks := ctx.callbacks.map (fun kv => (kv.1, respond_wait kv.2 (.error e)))
    objects := [] }

/-- `Context::find_object`: resolve a guid in the strong table (the returned
weak handle is represented by the node itself). -/
def Context.find_object (ctx : Context) (k : Guid) : Option RemoteArc :=
  lookupA ctx.objects k

/-- `Context::list_objects`. -/
def Context.list_objects (ctx : Context) : List RemoteArc := ctx.objects.map Prod.snd

/-- `Context::remove_object`. -/
def Context.remove_object (ctx : Context) (k : Guid) : Context :=
  { ctx with objects := eraseA ctx.objects k }

/-- `CreateParams` (`message.rs`, absent from the sources; its fields
`{type, guid, initializer}` are pinned by the spec §4.3 and the destructuring
in `create_remote_object`). -/
structure CreateParams where
  typ : String
  guid : Guid
  initializer : Value

/-- Modelled from the spec: the serde parse of `CreateParams` out of a creation
message's params map — `"type"` and `"guid"` must be strings; the initializer
payload defaults to `null` when absent. -/
def parseCreateParams (params : List (String × Value)) : Except Error CreateParams :=
  match lookupA params "type", lookupA params "guid" with
  | some (.str typ), some (.str guid) =>
    .ok { typ := typ, guid := guid, initializer := (lookupA params "initializer").getD .null }
  | _, _ => .error .Serde

/-- `str::trim` + `eq_ignore_ascii_case` composed, as used on the type tag in
`create_remote_object`. -/
def asciiLower (s : String) : String :=
  String.map (fun ch => if 'A' ≤ ch ∧ ch ≤ 'Z' then Char.ofNat (ch.toNat + 32) else ch) s

/-- `Context::create_remote_object` (`connection.rs`): parse the params, resolve
the parent in the strong table (`ObjectNotFound` if absent, before any
mutation), build the node, run the closed constructor registry, attach the
child edge, run the `BrowserContext`→`Browser` registration (including waking a
pending `new_context` liaison), insert into the strong table, and run the
post-creation hooks (`Page`/`Frame` hooks live in files outside the modelled
core and touch only their own type's state). -/
def Context.create_remote_object (ctx : Context) (parent : Guid)
    (params : List (String × Value)) : Except Error Unit × Context :=
  match parseCreateParams params with
  | .error e => (.error e, ctx)
  | .ok cp =>
    match lookupA ctx.objects parent with
    | none => (.error .ObjectNotFound, ctx)
    | some parent_obj =>
      -- ChannelOwner::new(self.ctx, parent_obj.downgrade(), typ, guid, initializer)
      let c : ChannelOwner :=
        { guid := cp.guid, typ := cp.typ, parent := some parent_obj.channel.guid,
          children := [], initializer := cp.initializer }
      match RemoteArc.try_new cp.typ c with
      | .error e => (.error e, ctx)
      | .ok r =>
        -- parent_obj.channel().push_child(r.downgrade())
        let ctx1 := { ctx with
          objects := updateA ctx.objects parent (fun a =>
            a.withChannel (fun ch => { ch with children := ch.children ++ [cp.guid] })) }
        -- typ.trim().eq_ignore_ascii_case("browsercontext")
        let is_browser_ctx := asciiLower cp.typ.trim = "browsercontext"
        let ctx2 :=
          if is_browser_ctx then
            match r, parent_obj with
            | .BrowserContext _, .Browser _ _ _ =>
              -- browser.push_context(weak) and, if a new_context call is in
              -- flight, take its one-shot sender and hand the weak over.
              { ctx1 with
                objects := updateA ctx1.objects parent (fun a =>
                  match a with
                  | .Browser ch ver var =>
                    .Browser ch ver { var with
                      contexts := var.contexts ++ [cp.guid], pending_context := none }
                  | other => other) }
            | _, _ => ctx1
          else ctx1
        (.ok (), { ctx2 with objects := insertA ctx2.objects cp.guid r })

/-- The recursion core of `Context::dispose`: look the guid up (return
unchanged if gone), recursively dispose every currently-known child whose weak
reference still upgrades, then remove the node itself.  The second component
is the ordered trace of `remove_object` calls.  The fuel bounds the recursion
depth; the parent-before-child construction of the graph keeps it acyclic, so
the fuel `Context.dispose` supplies is never exhausted there. -/
def disposeF : Nat → Context × List Guid → Guid → Context × List Guid
  | 0, st, _ => st
  | fuel + 1, st, i =>
    match lookupA st.1.objects i with
    | none => st
    | some a =>
      let st1 := a.channel.children.foldl
        (fun st c =>
          match lookupA st.1.objects c with
          | none => st
          | some _ => disposeF fuel st c) st
      ({ st1.1 with objects := eraseA st1.1.objects i }, st1.2 ++ [i])

/-- `Context::dispose`, with enough fuel for any table reachable by the
protocol (the table size bounds the depth of an acyclic child relation). -/
def Context.dispose (ctx : Context) (i : Guid) : Context × List Guid :=
  disposeF ctx.objects.length (ctx, []) i

/-- The outcome of one `Context::dispatch` step: the propagated
`Result<(), Error>`, the successor state, and — as the observation the spec's
"no handler fires" properties need — the guid+method of the type-specific
`handle_event` invocation, if the ordinary-event branch reached one.  Handler
bodies belong to the domain objects (out of the modelled core; their errors
are logged and swallowed by `dispatch`), so an invocation is recorded but has
no further effect on this state. -/
structure DispatchOut where
  res : Except Error Unit
  ctx : Context
  fired : Option (Guid × String)

/-- `Context::dispatch` (`connection.rs`):
* a `Result` message resolves the pending call registered under its id
  (`CallbackNotFound` if there is none), leaving the entry registered;
* a `__create__` message runs `create_remote_object` with the addressed guid
  as parent;
* a `__dispose__` message runs the cascading `dispose`;
* any other method resolves the target guid (`ObjectNotFound` if gone) and
  invokes its `handle_event`. -/
def Context.dispatch (ctx : Context) (msg : Res) : DispatchOut :=
  match msg with
  | .result id body =>
    match lookupA ctx.callbacks id with
    | none => ⟨.error .CallbackNotFound, ctx, none⟩
    | some _ =>
      ⟨.ok (), { ctx with
        callbacks := updateA ctx.callbacks id (fun p => respond_wait p (.ok body)) }, none⟩
  | .initial guid method params =>
    if Method.is_create method then
      let (r, ctx') := ctx.create_remote_object guid params
      ⟨r, ctx', none⟩
    else if Method.is_dispose method then
      ⟨.ok (), (ctx.dispose guid).1, none⟩
    else
      match lookupA ctx.objects guid with
      | none => ⟨.error .ObjectNotFound, ctx, none⟩
      | some _ => ⟨.ok (), ctx, some (guid, method)⟩

/-- The read loop of `Connection::start`: feed each decoded frame to
`Context.dispatch`; on the first dispatch error the loop stops (the `?`
operator breaks it) and `Context::notify_closed` runs with that error;
remaining frames are never processed. -/
def runLoop (ctx : Context) : List Res → Context
  | [] => ctx
  | m :: ms =>
    let out := ctx.dispatch m
    match out.res with
    | .error e => out.ctx.notify_closed e
    | .ok _ => runLoop out.ctx ms

/-! ## `Browser::new_context` (`browser.rs`): creation-race protocol -/

/-- The operations `Browser::new_context` performs, in program order, up to the
point where one of the three outcomes (correlated response, liaison, deadline)
is selected. -/
inductive NewContextStep where
  | captureExisting
  | sendRequest
  | registerLiaison
  | awaitOutcome
  | clearPending
deriving DecidableEq

/-- The order in which `Browser::new_context` executes its set-up steps, as
written in the source: snapshot `self.contexts()`, build and send the
`newContext` request, create the oneshot channel and store its sender in
`pending_context`, await the `select!` under the 30-second deadline, then
clear `pending_context` on every exit path. -/
def new_context_steps : List NewContextStep :=
  [.captureExisting, .sendRequest, .registerLiaison, .awaitOutcome, .clearPending]

/-- Position of a step in `new_context_steps`. -/
def stepIndex (s : NewContextStep) : Nat := new_context_steps.indexOf s

/-- `Browser::fallback_find_context` (`browser.rs`): the recovery run when the
deadline expires (or the liaison sender was dropped) with neither the
correlated response nor the liaison settled.  `ch`/`var` are the calling
browser's `ChannelOwner` and mutable `Variable`; `existing` is the snapshot of
`self.contexts()` taken before the call; `connCtx` is the upgraded connection
`Context`'s strong table (`none` when `self.context()` fails to upgrade, which
skips the final scan).  Weak upgrades resolve through the strong table.
Returns the result and the browser's updated `Variable`
(`register_new_context` pushes the found context). -/
def fallback_find_context (ch : ChannelOwner) (var : Variable) (existing : List Guid)
    (connCtx : Option (List (Guid × RemoteArc))) : Except Error Guid × Variable :=
  -- First, try the contexts vector that tracks registrations.
  let after := var.contexts
  match after.find? (fun c => !(existing.contains c)) with
  | some newCtx =>
    (.ok newCtx, { var with contexts := var.contexts ++ [newCtx] })
  | none =>
    -- Next, inspect the browser's children added via __create__ events,
    -- newest first.
    match ch.children.reverse.findSome? (fun child =>
        match connCtx with
        | none => none
        | some objs =>
          match lookupA objs child with
          | some (.BrowserContext _) => some child
          | _ => none) with
    | some w => (.ok w, { var with contexts := var.contexts ++ [w] })
    | none =>
      -- Finally, scan the raw connection object table for any BrowserContext
      -- whose parent is this browser.
      match connCtx with
      | none => (.error .Timeout, var)
      | some objs =>
        match objs.findSome? (fun kv =>
            match kv.2 with
            | .BrowserContext bc =>
              match bc.parent with
              | some pg =>
                match lookupA objs pg with
                | some (.Browser pch _ _) => if pch.guid = ch.guid then some kv.1 else none
                | _ => none
              | none => none
            | _ => none) with
        | some w => (.ok w, { var with contexts := var.contexts ++ [w] })
        | none => (.error .Timeout, var)

/-- Spec wording, tier (a): "diff the set of matching live objects
before/after the call and take any new one" — the first tracked context that
was not in the snapshot. -/
def tierDiff (after existing : List Guid) : Option Guid :=
  after.find? (fun c => !(existing.contains c))

/-- Spec wording, tier (b): "scan the calling object's known children for one
of the expected kind" — the most recently attached child that still upgrades
to a `BrowserContext`. -/
def tierChildren (connCtx : Option (List (Guid × RemoteArc))) (children : List Guid) :
    Option Guid :=
  children.reverse.findSome? (fun child =>
    match connCtx with
    | none => none
    | some objs =>
      match lookupA objs child with
      | some (.BrowserContext _) => some child
      | _ => none)

/-- Spec wording, tier (c): "scan the full table for an object of the expected
kind whose parent matches the caller" — a `BrowserContext` whose parent edge
resolves to a `Browser` with the caller's guid. -/
def tierTable (connCtx : Option (List (Guid × RemoteArc))) (selfGuid : Guid) :
    Option Guid :=
  match connCtx with
  | none => none
  | some objs =>
    objs.findSome? (fun kv =>
      match kv.2 with
      | .BrowserContext bc =>
        match bc.parent with
        | some pg =>
          match lookupA objs pg with
          | some (.Browser pch _ _) => if pch.guid = selfGuid then some kv.1 else none
          | _ => none
        | none => none
      | _ => none)

/-! ## Claim theorems -/

/-- C2 — code behavior at the failing input: when the transport reader holds no
complete frame and the read from the child's stdout returns zero bytes (the
process has exited), `try_read` returns `Ok(None)` — "no complete frame yet,
retry" — instead of surfacing a connection-closed condition; the read loop will
retry forever and `notify_closed` never runs. -/
theorem try_read_zero_read_reports_no_frame :
    ∀ decode : List Nat → Except TransportError Res,
      Reader.try_read decode { buf := [] } [] = (.ok none, { buf := [] }) := by
  intro decode
  rfl

/-- C3 counterexample: in `Browser::new_context` as written, the send of the
`newContext` request strictly precedes the registration of the one-shot
liaison, so it is false that the liaison is registered before the send. -/
theorem new_context_liaison_not_before_send :
    ¬ stepIndex .registerLiaison < stepIndex .sendRequest := by decide

/-- C3 (amended): `Browser::new_context` snapshots the existing contexts and
sends the `newContext` request first, and only then registers the one-shot
liaison — before awaiting the outcome — so the send happens while the liaison
slot is still empty. -/
theorem new_context_liaison_after_send :
    stepIndex .captureExisting < stepIndex .sendRequest ∧
    stepIndex .sendRequest < stepIndex .registerLiaison ∧
    stepIndex .registerLiaison < stepIndex .awaitOutcome := by decide

/-- C5: dispatching a creation message whose parent guid is not in the strong
table fails with `ObjectNotFound` and returns the `Context` exactly as it was
— the graph is not mutated on this path (and no handler fires). -/
theorem create_unknown_parent_rejected (ctx : Context) (parent : Guid)
    (params : List (String × Value)) (cp : CreateParams)
    (hparse : parseCreateParams params = .ok cp)
    (habs : lookupA ctx.objects parent = none) :
    ctx.dispatch (.initial parent "__create__" params) =
      ⟨.error .ObjectNotFound, ctx, none⟩ := by
  have hc : ctx.create_remote_object parent params = (.error .ObjectNotFound, ctx) := by
    unfold Context.create_remote_object
    rw [hparse, habs]
  simp only [Context.dispatch, Method.is_create, hc]
  rfl

/-- C5 witness: a concrete creation message addressed to an absent parent. -/
theorem create_unknown_parent_rejected_witness :
    parseCreateParams [("type", .str "Page"), ("guid", .str "page@1")] =
      .ok { typ := "Page", guid := "page@1", initializer := .null } ∧
    lookupA (Context.mk [] 0 [] []).objects "browser@1" = none ∧
    (Context.mk [] 0 [] []).dispatch
        (.initial "browser@1" "__create__" [("type", .str "Page"), ("guid", .str "page@1")]) =
      ⟨.error .ObjectNotFound, Context.mk [] 0 [] [], none⟩ :=
  ⟨rfl, rfl,
    create_unknown_parent_rejected (Context.mk [] 0 [] []) "browser@1"
      [("type", .str "Page"), ("guid", .str "page@1")]
      { typ := "Page", guid := "page@1", initializer := .null } rfl rfl⟩

/-- C6: `notify_closed` resolves every pending call to the same terminal error
— every callback record goes through `respond_wait` with that error, so every
record whose result cell and waker slot are still alive ends up holding it —
and leaves the strong table empty, so every subsequent weak-reference upgrade
(`find_object`) fails. -/
theorem notify_closed_resolves_all_and_clears (ctx : Context) (e : Error) :
    (ctx.notify_closed e).objects = [] ∧
    (∀ g, (ctx.notify_closed e).find_object g = none) ∧
    (∀ i, lookupA (ctx.notify_closed e).callbacks i
        = (lookupA ctx.callbacks i).map (fun p => respond_wait p (.error e))) ∧
    (∀ i p cell w, lookupA ctx.callbacks i = some p →
      p.value = some cell → p.waker = some w →
      lookupA (ctx.notify_closed e).callbacks i
        = some { value := some (some (.error e)), waker := some w }) := by
  have hcb : ∀ i, lookupA (ctx.notify_closed e).callbacks i
      = (lookupA ctx.callbacks i).map (fun p => respond_wait p (.error e)) := by
    intro i
    exact lookupA_map_snd ctx.callbacks (fun p => respond_wait p (.error e)) i
  refine ⟨rfl, fun g => rfl, hcb, ?_⟩
  intro i p cell w hreg hv hw
  rw [hcb i, hreg]
  simp only [Option.map_some']
  unfold respond_wait
  rw [hv, hw]

/-- C6 witness: a state with two pending calls (both futures alive) and one
object; after `notify_closed` both cells hold the terminal error and the
strong table is empty. -/
theorem notify_closed_resolves_all_and_clears_witness :
    (Context.notify_closed (Context.mk [("root", .Root ⟨"root", "Root", none, [], .null⟩)] 2
        [(1, ⟨some none, some none⟩), (2, ⟨some none, some (some ())⟩)] [])
        .ReceiverClosed).objects = [] ∧
    lookupA ((Context.mk [("root", .Root ⟨"root", "Root", none, [], .null⟩)] 2
        [(1, ⟨some none, some none⟩), (2, ⟨some none, some (some ())⟩)] []).notify_closed
        .ReceiverClosed).callbacks 1
      = some ⟨some (some (.error .ReceiverClosed)), some none⟩ ∧
    lookupA ((Context.mk [("root", .Root ⟨"root", "Root", none, [], .null⟩)] 2
        [(1, ⟨some none, some none⟩), (2, ⟨some none, some (some ())⟩)] []).notify_closed
        .ReceiverClosed).callbacks 2
      = some ⟨some (some (.error .ReceiverClosed)), some (some ())⟩ := by
  refine ⟨(notify_closed_resolves_all_and_clears _ .ReceiverClosed).1, ?_, ?_⟩
  · exact (notify_closed_resolves_all_and_clears _ .ReceiverClosed).2.2.2 1
      ⟨some none, some none⟩ none none rfl rfl rfl
  · exact (notify_closed_resolves_all_and_clears _ .ReceiverClosed).2.2.2 2
      ⟨some none, some (some ())⟩ none (some ()) rfl rfl rfl

/-- C8: a `Result` message whose id has no pending-call record makes `dispatch`
fail with `CallbackNotFound`; in the read loop this is fatal — the loop stops
(later frames are never processed) and `notify_closed` runs with that error.
The message is never silently ignored. -/
theorem result_unknown_id_is_fatal (ctx : Context) (i : Int)
    (body : Except ErrorMessage Value) (rest : List Res)
    (habs : lookupA ctx.callbacks i = none) :
    ctx.dispatch (.result i body) = ⟨.error .CallbackNotFound, ctx, none⟩ ∧
    runLoop ctx (.result i body :: rest) = ctx.notify_closed .CallbackNotFound := by
  have h1 : ctx.dispatch (.result i body) = ⟨.error .CallbackNotFound, ctx, none⟩ := by
    simp only [Context.dispatch, habs]
  refine ⟨h1, ?_⟩
  simp only [runLoop, h1]

/-- C8 witness: an empty pending-call table and a response with id 7; the loop
stops and closes instead of processing the remaining frame. -/
theorem result_unknown_id_is_fatal_witness :
    lookupA (Context.mk [] 0 [] []).callbacks 7 = none ∧
    (Context.mk [] 0 [] []).dispatch (.result 7 (.ok .null)) =
      ⟨.error .CallbackNotFound, Context.mk [] 0 [] [], none⟩ ∧
    runLoop (Context.mk [] 0 [] [])
        [.result 7 (.ok .null), .initial "g" "event" []] =
      (Context.mk [] 0 [] []).notify_closed .CallbackNotFound :=
  ⟨rfl,
   (result_unknown_id_is_fatal (Context.mk [] 0 [] []) 7 (.ok .null)
      [.initial "g" "event" []] rfl).1,
   (result_unknown_id_is_fatal (Context.mk [] 0 [] []) 7 (.ok .null)
      [.initial "g" "event" []] rfl).2⟩

/-- C9: if a call's future has been dropped before its response arrives (the
weak value slot no longer upgrades), `respond_wait` discards the result as a
total no-op, and dispatching that response succeeds while leaving the whole
`Context` — every other pending call and the object graph — exactly as it
was. -/
theorem dropped_future_result_discarded (ctx : Context) (i : Int) (p : WaitPlaces)
    (body : Except ErrorMessage Value)
    (hreg : lookupA ctx.callbacks i = some p)
    (hdrop : p.value = none) :
    (∀ res, respond_wait p res = p) ∧
    ctx.dispatch (.result i body) = ⟨.ok (), ctx, none⟩ := by
  have hrw : ∀ res, respond_wait p res = p := by
    intro res
    unfold respond_wait
    rw [hdrop]
  refine ⟨hrw, ?_⟩
  simp only [Context.dispatch, hreg]
  rw [updateA_of_fixed ctx.callbacks i _ p hreg (hrw _)]

/-- C9 witness: one dropped-future record under id 1 and one live record under
id 2; the response for id 1 is discarded and the state is untouched. -/
theorem dropped_future_result_discarded_witness :
    lookupA (Context.mk [] 2 [(1, ⟨none, none⟩), (2, ⟨some none, some none⟩)] []).callbacks 1
      = some ⟨none, none⟩ ∧
    (WaitPlaces.mk none none).value = none ∧
    (Context.mk [] 2 [(1, ⟨none, none⟩), (2, ⟨some none, some none⟩)] []).dispatch
        (.result 1 (.ok (.str "late"))) =
      ⟨.ok (), Context.mk [] 2 [(1, ⟨none, none⟩), (2, ⟨some none, some none⟩)] [], none⟩ :=
  ⟨rfl, rfl,
   (dropped_future_result_discarded
      (Context.mk [] 2 [(1, ⟨none, none⟩), (2, ⟨some none, some none⟩)] [])
      1 ⟨none, none⟩ (.ok (.str "late")) rfl rfl).2⟩

/-- C4: when neither the correlated response nor the liaison settled,
`fallback_find_context` is exactly the ordered composition of the three
fallback tiers — (a) diff the tracked contexts against the pre-call snapshot,
(b) scan the browser's known children for a `BrowserContext`, (c) scan the
full object table for a `BrowserContext` whose parent is this browser — and
when all three find nothing the call fails with `Timeout`. -/
theorem fallback_find_context_tier_order (ch : ChannelOwner) (var : Variable)
    (existing : List Guid) (connCtx : Option (List (Guid × RemoteArc))) :
    (fallback_find_context ch var existing connCtx).1 =
      (match tierDiff var.contexts existing with
      | some c => .ok c
      | none =>
        match tierChildren connCtx ch.children with
        | some c => .ok c
        | none =>
          match tierTable connCtx ch.guid with
          | some c => .ok c
          | none => .error .Timeout) := by
  unfold fallback_find_context tierDiff tierChildren tierTable
  cases h1 : List.find? (fun c => !(existing.contains c)) var.contexts with
  | some c => simp only [h1]
  | none =>
    simp only [h1]
    cases h2 : ch.children.reverse.findSome? (fun child =>
        match connCtx with
        | none => none
        | some objs =>
          match lookupA objs child with
          | some (.BrowserContext _) => some child
          | _ => none) with
    | some w => simp only [h2]
    | none =>
      simp only [h2]
      cases connCtx with
      | none => rfl
      | some objs =>
        cases h3 : objs.findSome? (fun kv =>
            match kv.2 with
            | .BrowserContext bc =>
              match bc.parent with
              | some pg =>
                match lookupA objs pg with
                | some (.Browser pch _ _) => if pch.guid = ch.guid then some kv.1 else none
                | _ => none
              | none => none
            | _ => none) with
        | some w => simp only [h3]
        | none => simp only [h3]

/-! ### Lemmas: which fields each operation touches -/

theorem create_remote_object_fields (ctx : Context) (parent : Guid)
    (params : List (String × Value)) :
    (ctx.create_remote_object parent params).2.callbacks = ctx.callbacks ∧
    (ctx.create_remote_object parent params).2.id = ctx.id ∧
    (ctx.create_remote_object parent params).2.sent = ctx.sent := by
  unfold Context.create_remote_object
  cases hp : parseCreateParams params with
  | error e => exact ⟨rfl, rfl, rfl⟩
  | ok cp =>
    cases hl : lookupA ctx.objects parent with
    | none => exact ⟨rfl, rfl, rfl⟩
    | some parent_obj =>
      simp only [hp, hl]
      split
      · exact ⟨rfl, rfl, rfl⟩
      · split
        · split
          · exact ⟨rfl, rfl, rfl⟩
          · exact ⟨rfl, rfl, rfl⟩
        · exact ⟨rfl, rfl, rfl⟩

theorem disposeF_fields (fuel : Nat) : ∀ (st : Context × List Guid) (i : Guid),
    (disposeF fuel st i).1.callbacks = st.1.callbacks ∧
    (disposeF fuel st i).1.id = st.1.id ∧
    (disposeF fuel st i).1.sent = st.1.sent := by
  induction fuel with
  | zero => intro st i; exact ⟨rfl, rfl, rfl⟩
  | succ fuel ih =>
    intro st i
    unfold disposeF
    cases h : lookupA st.1.objects i with
    | none => exact ⟨rfl, rfl, rfl⟩
    | some a =>
      dsimp only
      have hfold : ∀ (cs : List Guid) (st : Context × List Guid),
          ((cs.foldl (fun st c =>
            match lookupA st.1.objects c with
            | none => st
            | some _ => disposeF fuel st c) st).1.callbacks = st.1.callbacks ∧
           (cs.foldl (fun st c =>
            match lookupA st.1.objects c with
            | none => st
            | some _ => disposeF fuel st c) st).1.id = st.1.id ∧
           (cs.foldl (fun st c =>
            match lookupA st.1.objects c with
            | none => st
            | some _ => disposeF fuel st c) st).1.sent = st.1.sent) := by
        intro cs
        induction cs with
        | nil => intro st; exact ⟨rfl, rfl, rfl⟩
        | cons c cs ihc =>
          intro st
          rw [List.foldl_cons]
          refine ⟨?_, ?_, ?_⟩
          · rw [(ihc _).1]
            cases h2 : lookupA st.1.objects c with
            | none => simp only [h2]
            | some _ => simp only [h2]; exact (ih st c).1
          · rw [(ihc _).2.1]
            cases h2 : lookupA st.1.objects c with
            | none => simp only [h2]
            | some _ => simp only [h2]; exact (ih st c).2.1
          · rw [(ihc _).2.2]
            cases h2 : lookupA st.1.objects c with
            | none => simp only [h2]
            | some _ => simp only [h2]; exact (ih st c).2.2
      exact ⟨(hfold a.channel.children st).1, (hfold a.channel.children st).2.1,
             (hfold a.channel.children st).2.2⟩

theorem mem_keysA_insertA {κ β : Type} [DecidableEq κ] (m : List (κ × β)) (k : κ) (v : β)
    (k' : κ) : k' ∈ keysA (insertA m k v) ↔ k' = k ∨ k' ∈ keysA m := by
  induction m with
  | nil => simp [insertA, keysA]
  | cons p m ih =>
    obtain ⟨k0, v0⟩ := p
    by_cases hk : k0 = k
    · subst hk
      show k' ∈ keysA (if k0 = k0 then (k0, v) :: m else (k0, v0) :: insertA m k0 v) ↔ _
      rw [if_pos rfl]
      simp only [keysA_cons, List.mem_cons]
      tauto
    · show k' ∈ keysA (if k0 = k then (k, v) :: m else (k0, v0) :: insertA m k v) ↔ _
      rw [if_neg hk]
      simp only [keysA_cons, List.mem_cons, ih]
      tauto

/-- C10: the pending-call table never shrinks — dispatching any message leaves
its key set unchanged (`Result`s look the record up without removing it),
`notify_closed` clears only the strong table while keeping every callbacks
entry, and `send_message` only adds: it keeps every existing key and registers
the newly allocated id. -/
theorem callbacks_table_never_shrinks (ctx : Context) (msg : Res) (e : Error)
    (r : RequestBody) :
    keysA ((ctx.dispatch msg).ctx).callbacks = keysA ctx.callbacks ∧
    keysA (ctx.notify_closed e).callbacks = keysA ctx.callbacks ∧
    (∀ k ∈ keysA ctx.callbacks, k ∈ keysA (ctx.send_message r).callbacks) ∧
    wrap32 (ctx.id + 1) ∈ keysA (ctx.send_message r).callbacks := by
  refine ⟨?_, ?_, ?_, ?_⟩
  · cases msg with
    | result i body =>
      cases h : lookupA ctx.callbacks i with
      | none => simp only [Context.dispatch, h]
      | some p =>
        simp only [Context.dispatch, h]
        exact keysA_updateA ctx.callbacks i _
    | initial guid method params =>
      simp only [Context.dispatch]
      by_cases hc : Method.is_create method = true
      · rw [if_pos hc]
        have hf := (create_remote_object_fields ctx guid params).1
        cases hcr : ctx.create_remote_object guid params with
        | mk res ctx' =>
          rw [hcr] at hf
          simp only [hcr]
          rw [hf]
      · rw [if_neg hc]
        by_cases hd : Method.is_dispose method = true
        · rw [if_pos hd]
          show keysA (disposeF ctx.objects.length (ctx, []) guid).1.callbacks = _
          rw [(disposeF_fields ctx.objects.length (ctx, []) guid).1]
        · rw [if_neg hd]
          cases h : lookupA ctx.objects guid with
          | none => simp only [h]
          | some _ => simp only [h]
  · exact keysA_map_snd ctx.callbacks (fun p => respond_wait p (.error e))
  · intro k hk
    exact (mem_keysA_insertA ctx.callbacks (wrap32 (ctx.id + 1)) r.place k).mpr (Or.inr hk)
  · exact (mem_keysA_insertA ctx.callbacks (wrap32 (ctx.id + 1)) r.place _).mpr (Or.inl rfl)

/-- C10 witness: in a state with one pending call, each of the three moves —
dispatching its response, closing, sending a new request — keeps the existing
key, and the send registers the fresh id 6. -/
theorem callbacks_table_never_shrinks_witness :
    keysA (((Context.mk [] 5 [(3, ⟨some none, some none⟩)] []).dispatch
        (.result 3 (.ok .null))).ctx).callbacks = [3] ∧
    keysA ((Context.mk [] 5 [(3, ⟨some none, some none⟩)] []).notify_closed
        .ReceiverClosed).callbacks = [3] ∧
    (3 : Int) ∈ keysA ((Context.mk [] 5 [(3, ⟨some none, some none⟩)] []).send_message
        ⟨"root", "m", [], .null, ⟨some none, some none⟩⟩).callbacks ∧
    wrap32 (5 + 1) ∈ keysA ((Context.mk [] 5 [(3, ⟨some none, some none⟩)] []).send_message
        ⟨"root", "m", [], .null, ⟨some none, some none⟩⟩).callbacks := by
  have h := callbacks_table_never_shrinks (Context.mk [] 5 [(3, ⟨some none, some none⟩)] [])
    (.result 3 (.ok .null)) .ReceiverClosed ⟨"root", "m", [], .null, ⟨some none, some none⟩⟩
  exact ⟨h.1, h.2.1, h.2.2.1 3 (by decide), h.2.2.2⟩

/-! ### C7: cascading disposal of a chain-shaped subtree -/

/-- A graph node with the given currently-known children (the node's concrete
proxy type is irrelevant to `dispose`). -/
def mkChainNode (g : Guid) (cs : List Guid) : RemoteArc :=
  .Other { guid := g, typ := "Node", parent := none, children := cs, initializer := .null }

/-- The strong table of a descending chain: `gs[i]`'s only currently-known
child is `gs[i+1]` — a subtree of depth `gs.length - 1` with `gs.length`
nodes. -/
def chainTable : List Guid → List (Guid × RemoteArc)
  | [] => []
  | [g] => [(g, mkChainNode g [])]
  | g :: g' :: rest => (g, mkChainNode g [g']) :: chainTable (g' :: rest)

theorem keysA_chainTable : ∀ gs : List Guid, keysA (chainTable gs) = gs := by
  intro gs
  induction gs with
  | nil => rfl
  | cons g rest ih =>
    cases rest with
    | nil => rfl
    | cons g' rest' =>
      show keysA ((g, mkChainNode g [g']) :: chainTable (g' :: rest')) = _
      rw [keysA_cons, ih]

theorem keysA_append {κ β : Type} (A B : List (κ × β)) :
    keysA (A ++ B) = keysA A ++ keysA B := List.map_append _ _ _

theorem disposeF_chain : ∀ (rest : List Guid) (g : Guid) (fuel : Nat)
    (pre : List (Guid × RemoteArc)) (ctx : Context) (tr : List Guid),
    ctx.objects = pre ++ chainTable (g :: rest) →
    (keysA (pre ++ chainTable (g :: rest))).Nodup →
    (g :: rest).length ≤ fuel →
    disposeF fuel (ctx, tr) g = ({ ctx with objects := pre }, tr ++ (g :: rest).reverse) := by
  intro rest
  induction rest with
  | nil =>
    intro g fuel pre ctx tr hobj hnd hfuel
    cases fuel with
    | zero => simp at hfuel
    | succ fuel' =>
      have hkeys : keysA (pre ++ chainTable [g]) = keysA pre ++ [g] := by
        rw [keysA_append, keysA_chainTable]
      rw [hkeys] at hnd
      have hg : g ∉ keysA pre := by
        intro hmem
        exact (List.nodup_append.mp hnd).2.2 hmem (List.mem_singleton_self g)
      have hlook : lookupA ctx.objects g = some (mkChainNode g []) := by
        rw [hobj]
        rw [lookupA_append_of_not_mem _ _ _ hg]
        show (if g = g then some (mkChainNode g []) else lookupA [] g) = _
        rw [if_pos rfl]
      have herase : eraseA ctx.objects g = pre := by
        rw [hobj]
        have h := eraseA_append_of_not_mem pre g (mkChainNode g []) [] hg
        simpa using h
      show disposeF (fuel' + 1) (ctx, tr) g = _
      unfold disposeF
      rw [hlook]
      show ({ (ctx, tr).1 with objects := eraseA (ctx, tr).1.objects g }, (ctx, tr).2 ++ [g]) = _
      rw [herase]
      simp
  | cons g' rest' ih =>
    intro g fuel pre ctx tr hobj hnd hfuel
    cases fuel with
    | zero => simp at hfuel
    | succ fuel' =>
      have hchain : chainTable (g :: g' :: rest')
          = (g, mkChainNode g [g']) :: chainTable (g' :: rest') := rfl
      have hkeys : keysA (pre ++ chainTable (g :: g' :: rest'))
          = keysA pre ++ g :: g' :: rest' := by
        rw [keysA_append, keysA_chainTable]
      rw [hkeys] at hnd
      obtain ⟨hndpre, hndchain, hdisj⟩ := List.nodup_append.mp hnd
      have hg : g ∉ keysA pre := fun hmem => hdisj hmem (List.mem_cons_self g _)
      have hg' : g' ∉ keysA pre := fun hmem =>
        hdisj hmem (List.mem_cons_of_mem g (List.mem_cons_self g' _))
      have hgg' : g ≠ g' := by
        intro hc
        exact (List.nodup_cons.mp hndchain).1 (hc ▸ List.mem_cons_self g' rest')
      have hlook : lookupA ctx.objects g = some (mkChainNode g [g']) := by
        rw [hobj, hchain]
        rw [lookupA_append_of_not_mem _ _ _ hg]
        show (if g = g then _ else _) = _
        rw [if_pos rfl]
      have hlook' : lookupA ctx.objects g' = lookupA (chainTable (g' :: rest')) g' := by
        rw [hobj, hchain]
        rw [lookupA_append_of_not_mem _ _ _ hg']
        show (if g = g' then _ else _) = _
        rw [if_neg hgg']
      have hlooksome : ∃ a, lookupA ctx.objects g' = some a := by
        rw [hlook']
        cases rest' with
        | nil =>
          exact ⟨mkChainNode g' [], by
            show (if g' = g' then _ else _) = _
            rw [if_pos rfl]⟩
        | cons g'' rest'' =>
          exact ⟨mkChainNode g' [g''], by
            show (if g' = g' then _ else _) = _
            rw [if_pos rfl]⟩
      -- the recursive disposal of the single child g'
      have hrec : disposeF fuel' (ctx, tr) g'
          = ({ ctx with objects := pre ++ [(g, mkChainNode g [g'])] }, tr ++ (g' :: rest').reverse) := by
        apply ih g' fuel' (pre ++ [(g, mkChainNode g [g'])]) ctx tr
        · rw [hobj, hchain, List.append_assoc]
          rfl
        · rw [keysA_append, keysA_chainTable]
          rw [show keysA (pre ++ [(g, mkChainNode g [g'])]) = keysA pre ++ [g] from by
            rw [keysA_append]; rfl]
          rw [List.append_assoc]
          exact hnd
        · have := hfuel
          simp only [List.length_cons] at this ⊢
          omega
      obtain ⟨a0, hsome⟩ := hlooksome
      have hstep : disposeF (fuel' + 1) (ctx, tr) g
          = ({ (disposeF fuel' (ctx, tr) g').1 with
              objects := eraseA (disposeF fuel' (ctx, tr) g').1.objects g },
             (disposeF fuel' (ctx, tr) g').2 ++ [g]) := by
        simp only [disposeF, hlook, mkChainNode, RemoteArc.channel,
          List.foldl_cons, List.foldl_nil, hsome]
      rw [hstep, hrec]
      have herase : eraseA (pre ++ [(g, mkChainNode g [g'])]) g = pre := by
        have h := eraseA_append_of_not_mem pre g (mkChainNode g [g']) [] hg
        simpa using h
      show ({ ctx with objects := eraseA (pre ++ [(g, mkChainNode g [g'])]) g },
          (tr ++ (g' :: rest').reverse) ++ [g]) = _
      rw [herase, List.append_assoc]
      rw [show (g' :: rest').reverse ++ [g] = (g :: g' :: rest').reverse from
        (List.reverse_cons g (g' :: rest')).symm]

theorem chainTable_length : ∀ gs : List Guid, (chainTable gs).length = gs.length := by
  intro gs
  have h : (keysA (chainTable gs)).length = gs.length := by rw [keysA_chainTable]
  rw [← h]
  exact (List.length_map _ _).symm

/-- C7: disposing the root of a chain of `D + 1` currently-known nodes (a
subtree of depth `D`) removes every one of the `D + 1` nodes from the strong
table, in strictly bottom-up order — the removal trace is exactly the chain
reversed, so each node's child is removed before the node itself — and
afterwards no message addressed to any guid can reach an event handler. -/
theorem dispose_chain_removes_all_bottom_up (ctx : Context) (g : Guid) (rest : List Guid)
    (hobj : ctx.objects = chainTable (g :: rest))
    (hnd : (g :: rest).Nodup) :
    (ctx.dispose g).1.objects = [] ∧
    (ctx.dispose g).2 = (g :: rest).reverse ∧
    (∀ x ∈ g :: rest, (ctx.dispose g).1.find_object x = none) ∧
    (∀ x method params,
      ((ctx.dispose g).1.dispatch (.initial x method params)).fired = none) := by
  have hlen : ctx.objects.length = (g :: rest).length := by
    rw [hobj]; exact chainTable_length (g :: rest)
  have hmain := disposeF_chain rest g ctx.objects.length [] ctx []
    (by simpa using hobj)
    (by simpa [keysA_chainTable] using hnd)
    (by rw [hlen])
  have hd : ctx.dispose g = ({ ctx with objects := [] }, (g :: rest).reverse) := by
    show disposeF ctx.objects.length (ctx, []) g = _
    rw [hmain]
    simp
  refine ⟨by rw [hd], by rw [hd], ?_, ?_⟩
  · intro x hx
    rw [hd]
    rfl
  · intro x method params
    rw [hd]
    show (Context.dispatch { ctx with objects := [] } (.initial x method params)).fired = none
    by_cases hc : Method.is_create method = true
    · simp only [Context.dispatch, if_pos hc]
    · rw [Context.dispatch]
      rw [if_neg hc]
      by_cases hdm : Method.is_dispose method = true
      · rw [if_pos hdm]
      · rw [if_neg hdm]
        rfl

/-- C7 witness: a concrete three-node chain (depth 2); disposal empties the
table, removes bottom-up (`c`, then `b`, then `a`), and an event addressed to
a removed guid reaches no handler. -/
theorem dispose_chain_removes_all_bottom_up_witness :
    (["a", "b", "c"] : List Guid).Nodup ∧
    ((Context.mk (chainTable ["a", "b", "c"]) 0 [] []).dispose "a").1.objects = [] ∧
    ((Context.mk (chainTable ["a", "b", "c"]) 0 [] []).dispose "a").2 = ["c", "b", "a"] ∧
    ((Context.mk (chainTable ["a", "b", "c"]) 0 [] []).dispose "a").1.find_object "b" = none ∧
    (((Context.mk (chainTable ["a", "b", "c"]) 0 [] []).dispose "a").1.dispatch
        (.initial "b" "close" [])).fired = none := by
  have h := dispose_chain_removes_all_bottom_up
    (Context.mk (chainTable ["a", "b", "c"]) 0 [] []) "a" ["b", "c"] rfl (by decide)
  exact ⟨by decide, h.1, h.2.1, h.2.2.1 "b" (by simp), h.2.2.2 "b" "close" []⟩

/-! ### C1: id allocation and out-of-order response correlation -/

/-- Issue a batch of requests through `send_message`, in order. -/
def sendAll (ctx : Context) (rs : List RequestBody) : Context :=
  rs.foldl Context.send_message ctx

/-- Feed a batch of `Result` messages to `dispatch`, in arrival order. -/
def deliverAll (ctx : Context) (resps : List (Int × Except ErrorMessage Value)) : Context :=
  resps.foldl (fun c ib => (c.dispatch (.result ib.1 ib.2)).ctx) ctx

/-- The pending-call records a batch of sends registers when the counter
starts at `base`: the `j`-th request goes under id `base + j + 1`. -/
def newCbs : Int → List RequestBody → List (Int × WaitPlaces)
  | _, [] => []
  | base, r :: rs => (base + 1, r.place) :: newCbs (base + 1) rs

theorem wrap32_eq_self (n : Int) (hlo : -(2 ^ 31) ≤ n) (hhi : n < 2 ^ 31) :
    wrap32 n = n := by
  unfold wrap32
  have h1 : (0 : Int) ≤ n + 2 ^ 31 := by omega
  have h2 : n + 2 ^ 31 < 2 ^ 32 := by omega
  rw [Int.emod_eq_of_lt h1 h2]
  omega

theorem newCbs_keys_gt (rs : List RequestBody) : ∀ (base : Int) (k : Int),
    k ∈ keysA (newCbs base rs) → base < k := by
  induction rs with
  | nil => intro base k hk; simp [newCbs] at hk
  | cons r rs ih =>
    intro base k hk
    rw [show newCbs base (r :: rs) = (base + 1, r.place) :: newCbs (base + 1) rs from rfl,
      keysA_cons] at hk
    cases List.mem_cons.mp hk with
    | inl h => omega
    | inr h => have := ih (base + 1) k h; omega

theorem newCbs_keys_pairwise (rs : List RequestBody) : ∀ base : Int,
    (keysA (newCbs base rs)).Pairwise (· < ·) := by
  induction rs with
  | nil => intro base; simp [newCbs]
  | cons r rs ih =>
    intro base
    rw [show newCbs base (r :: rs) = (base + 1, r.place) :: newCbs (base + 1) rs from rfl,
      keysA_cons]
    exact List.Pairwise.cons (fun k hk => newCbs_keys_gt rs (base + 1) k hk) (ih (base + 1))

theorem newCbs_length (rs : List RequestBody) : ∀ base : Int,
    (keysA (newCbs base rs)).length = rs.length := by
  induction rs with
  | nil => intro base; rfl
  | cons r rs ih =>
    intro base
    rw [show newCbs base (r :: rs) = (base + 1, r.place) :: newCbs (base + 1) rs from rfl,
      keysA_cons, List.length_cons, ih (base + 1), List.length_cons]

theorem lookupA_newCbs (rs : List RequestBody) : ∀ (base : Int) (j : Nat) (hj : j < rs.length),
    lookupA (newCbs base rs) (base + (j : Int) + 1) = some (rs.get ⟨j, hj⟩).place := by
  induction rs with
  | nil => intro base j hj; simp at hj
  | cons r rs ih =>
    intro base j hj
    cases j with
    | zero =>
      show lookupA ((base + 1, r.place) :: newCbs (base + 1) rs) (base + ((0 : Nat) : Int) + 1)
        = some r.place
      rw [lookupA_cons, if_pos (by push_cast; ring)]
    | succ j' =>
      simp only [List.length_cons] at hj
      show lookupA ((base + 1, r.place) :: newCbs (base + 1) rs)
          (base + ((j' + 1 : Nat) : Int) + 1) = some (rs.get ⟨j', by omega⟩).place
      rw [lookupA_cons, if_neg (by push_cast; omega)]
      have h := ih (base + 1) j' (by omega)
      rw [show base + ((j' + 1 : Nat) : Int) + 1 = base + 1 + (j' : Int) + 1 by push_cast; ring]
      exact h

theorem sendAll_spec (rs : List RequestBody) : ∀ (ctx : Context),
    (∀ k ∈ keysA ctx.callbacks, k ≤ ctx.id) →
    -(2 ^ 31) ≤ ctx.id → ctx.id + rs.length < 2 ^ 31 →
    (sendAll ctx rs).id = ctx.id + rs.length ∧
    (sendAll ctx rs).callbacks = ctx.callbacks ++ newCbs ctx.id rs ∧
    (sendAll ctx rs).objects = ctx.objects := by
  induction rs with
  | nil =>
    intro ctx hk hlo hhi
    refine ⟨by simp [sendAll], by simp [sendAll, newCbs], rfl⟩
  | cons r rs ih =>
    intro ctx hk hlo hhi
    have hlen : ((r :: rs).length : Int) = (rs.length : Int) + 1 := by
      rw [List.length_cons]; push_cast; ring
    have hwrap : wrap32 (ctx.id + 1) = ctx.id + 1 := by
      apply wrap32_eq_self
      · omega
      · rw [hlen] at hhi; omega
    have hfresh : wrap32 (ctx.id + 1) ∉ keysA ctx.callbacks := by
      rw [hwrap]
      intro hmem
      have := hk _ hmem
      omega
    have hid1 : (ctx.send_message r).id = ctx.id + 1 := hwrap
    have hcb1 : (ctx.send_message r).callbacks = ctx.callbacks ++ [(ctx.id + 1, r.place)] := by
      show insertA ctx.callbacks (wrap32 (ctx.id + 1)) r.place = _
      rw [insertA_of_not_mem _ _ _ hfresh, hwrap]
    have hob1 : (ctx.send_message r).objects = ctx.objects := rfl
    have hk1 : ∀ k ∈ keysA (ctx.send_message r).callbacks, k ≤ (ctx.send_message r).id := by
      rw [hcb1, hid1]
      intro k hkm
      rw [keysA_append] at hkm
      cases List.mem_append.mp hkm with
      | inl h => have := hk k h; omega
      | inr h =>
        have : k = ctx.id + 1 := by simpa [keysA] using h
        omega
    obtain ⟨ha, hb, hc⟩ := ih (ctx.send_message r)
      (hk1) (by rw [hid1]; omega) (by rw [hid1]; rw [hlen] at hhi; omega)
    refine ⟨?_, ?_, ?_⟩
    · show (sendAll (ctx.send_message r) rs).id = _
      rw [ha, hid1, hlen]
      ring
    · show (sendAll (ctx.send_message r) rs).callbacks = _
      rw [hid1] at hb
      rw [hb, hcb1, List.append_assoc]
      rfl
    · show (sendAll (ctx.send_message r) rs).objects = _
      rw [hc, hob1]

theorem deliverAll_preserve (resps : List (Int × Except ErrorMessage Value)) :
    ∀ (ctx : Context) (i : Int), (∀ p ∈ resps, p.1 ≠ i) →
    lookupA (deliverAll ctx resps).callbacks i = lookupA ctx.callbacks i := by
  induction resps with
  | nil => intro ctx i h; rfl
  | cons q resps ih =>
    intro ctx i h
    show lookupA (deliverAll ((ctx.dispatch (.result q.1 q.2)).ctx) resps).callbacks i = _
    rw [ih _ _ (fun p hp => h p (List.mem_cons_of_mem _ hp))]
    cases hl : lookupA ctx.callbacks q.1 with
    | none => simp only [Context.dispatch, hl]
    | some p =>
      simp only [Context.dispatch, hl]
      exact lookupA_updateA_ne _ _ _ _ (Ne.symm (h q (List.mem_cons_self _ _)))

theorem deliverAll_delivers (resps : List (Int × Except ErrorMessage Value)) :
    ∀ (ctx : Context), (resps.map Prod.fst).Nodup →
    ∀ (i : Int) (b : Except ErrorMessage Value) (p : WaitPlaces),
    (i, b) ∈ resps → lookupA ctx.callbacks i = some p →
    lookupA (deliverAll ctx resps).callbacks i = some (respond_wait p (.ok b)) := by
  induction resps with
  | nil => intro ctx _ i b p hmem; cases hmem
  | cons q resps ih =>
    intro ctx hnd i b p hmem hreg
    obtain ⟨q1, q2⟩ := q
    rw [List.map_cons] at hnd
    cases List.mem_cons.mp hmem with
    | inl heq =>
      cases heq
      show lookupA (deliverAll ((ctx.dispatch (.result i b)).ctx) resps).callbacks i = _
      have hni : ∀ p ∈ resps, p.1 ≠ i := by
        intro p hp hc
        have hmm : p.1 ∈ resps.map Prod.fst := List.mem_map_of_mem Prod.fst hp
        rw [hc] at hmm
        exact (List.nodup_cons.mp hnd).1 hmm
      rw [deliverAll_preserve resps _ i hni]
      simp only [Context.dispatch, hreg]
      exact lookupA_updateA_self _ _ _ _ hreg
    | inr hmem' =>
      have hiq : i ≠ q1 := by
        intro hc
        have hmm : (i, b).1 ∈ resps.map Prod.fst := List.mem_map_of_mem Prod.fst hmem'
        rw [show (i, b).1 = i from rfl, hc] at hmm
        exact (List.nodup_cons.mp hnd).1 hmm
      show lookupA (deliverAll ((ctx.dispatch (.result q1 q2)).ctx) resps).callbacks i = _
      apply ih _ (List.nodup_cons.mp hnd).2 i b p hmem'
      cases hl : lookupA ctx.callbacks q1 with
      | none => simp only [Context.dispatch, hl]; exact hreg
      | some _ =>
        simp only [Context.dispatch, hl]
        rw [lookupA_updateA_ne _ _ _ _ hiq]
        exact hreg

theorem mem_zip_newCbs (rs : List RequestBody) :
    ∀ (payloads : List (Except ErrorMessage Value)) (base : Int) (j : Nat)
      (_hj : j < rs.length) (hp : j < payloads.length),
    (base + (j : Int) + 1, payloads.get ⟨j, hp⟩)
      ∈ List.zip (keysA (newCbs base rs)) payloads := by
  induction rs with
  | nil => intro payloads base j hj hp; simp at hj
  | cons r rs ih =>
    intro payloads base j hj hp
    cases payloads with
    | nil => simp at hp
    | cons b bs =>
      show _ ∈ List.zip ((base + 1) :: keysA (newCbs (base + 1) rs)) (b :: bs)
      rw [List.zip_cons_cons]
      cases j with
      | zero =>
        apply List.mem_cons.mpr
        left
        show (base + ((0 : Nat) : Int) + 1, b) = (base + 1, b)
        rw [show base + ((0 : Nat) : Int) + 1 = base + 1 by push_cast; ring]
      | succ j' =>
        apply List.mem_cons.mpr
        right
        simp only [List.length_cons] at hj hp
        have h := ih bs (base + 1) j' (by omega) (by omega)
        rw [show base + ((j' + 1 : Nat) : Int) + 1 = base + 1 + (j' : Int) + 1 by
          push_cast; ring]
        exact h

/-- C1: starting from any state whose pending-call keys do not exceed the
counter (and whose counter does not overflow on this batch), issuing `N`
requests registers each under a fresh id — the key set grows by exactly the
new ids, which are strictly increasing and all above the old counter — and
then delivering the `N` responses in *any* order (any permutation of the
matching id/payload pairs) leaves, for every `j`, the record registered for
the `j`-th call holding exactly the `j`-th call's own payload. -/
theorem send_message_correlates_out_of_order_responses
    (ctx : Context) (rs : List RequestBody)
    (hk : ∀ k ∈ keysA ctx.callbacks, k ≤ ctx.id)
    (hlo : -(2 ^ 31) ≤ ctx.id) (hhi : ctx.id + rs.length < 2 ^ 31)
    (payloads : List (Except ErrorMessage Value)) (hlen : payloads.length = rs.length)
    (resps : List (Int × Except ErrorMessage Value))
    (hperm : resps.Perm (List.zip (keysA (newCbs ctx.id rs)) payloads)) :
    keysA (sendAll ctx rs).callbacks = keysA ctx.callbacks ++ keysA (newCbs ctx.id rs) ∧
    (keysA (newCbs ctx.id rs)).Pairwise (· < ·) ∧
    (∀ k ∈ keysA (newCbs ctx.id rs), ctx.id < k ∧ k ∉ keysA ctx.callbacks) ∧
    (∀ (j : Nat) (hj : j < rs.length) (hp : j < payloads.length),
      lookupA (deliverAll (sendAll ctx rs) resps).callbacks (ctx.id + (j : Int) + 1)
        = some (respond_wait (rs.get ⟨j, hj⟩).place (.ok (payloads.get ⟨j, hp⟩)))) := by
  obtain ⟨hid, hcb, hob⟩ := sendAll_spec rs ctx hk hlo hhi
  have hkeys : keysA (sendAll ctx rs).callbacks
      = keysA ctx.callbacks ++ keysA (newCbs ctx.id rs) := by
    rw [hcb, keysA_append]
  have hfreshs : ∀ k ∈ keysA (newCbs ctx.id rs), ctx.id < k ∧ k ∉ keysA ctx.callbacks := by
    intro k hkm
    have h1 := newCbs_keys_gt rs ctx.id k hkm
    exact ⟨h1, fun hc => absurd (hk k hc) (by omega)⟩
  refine ⟨hkeys, newCbs_keys_pairwise rs ctx.id, hfreshs, ?_⟩
  intro j hj hp
  -- the response ids are pairwise distinct
  have hmapfst : (List.zip (keysA (newCbs ctx.id rs)) payloads).map Prod.fst
      = keysA (newCbs ctx.id rs) := by
    apply List.map_fst_zip
    rw [newCbs_length, hlen]
  have hndzip : ((List.zip (keysA (newCbs ctx.id rs)) payloads).map Prod.fst).Nodup := by
    rw [hmapfst]
    exact (newCbs_keys_pairwise rs ctx.id).imp (fun h => ne_of_lt h)
  have hndresp : (resps.map Prod.fst).Nodup :=
    ((hperm.map Prod.fst).nodup_iff).mpr hndzip
  -- the j-th pair is among the responses
  have hmem : (ctx.id + (j : Int) + 1, payloads.get ⟨j, hp⟩) ∈ resps :=
    hperm.mem_iff.mpr (mem_zip_newCbs rs payloads ctx.id j hj hp)
  -- the j-th record is registered in the post-send state
  have hreg : lookupA (sendAll ctx rs).callbacks (ctx.id + (j : Int) + 1)
      = some (rs.get ⟨j, hj⟩).place := by
    rw [hcb]
    rw [lookupA_append_of_not_mem _ _ _ (by
      intro hc
      have := hk _ hc
      omega)]
    exact lookupA_newCbs rs ctx.id j hj
  exact deliverAll_delivers resps (sendAll ctx rs) hndresp _ _ _ hmem hreg

/-- C1 witness: two calls sent from a fresh state get ids 1 and 2; delivering
response 2 *before* response 1 still leaves record 1 holding payload "pa" and
record 2 holding payload "pb". -/
theorem send_message_correlates_out_of_order_responses_witness :
    ((0 : Int) + ([(⟨"r", "a", [], .null, ⟨some none, some none⟩⟩ : RequestBody),
       ⟨"r", "b", [], .null, ⟨some none, some none⟩⟩] : List RequestBody).length < 2 ^ 31) ∧
    lookupA (deliverAll
        (sendAll (Context.mk [] 0 [] [])
          [⟨"r", "a", [], .null, ⟨some none, some none⟩⟩,
           ⟨"r", "b", [], .null, ⟨some none, some none⟩⟩])
        [(2, .ok (.str "pb")), (1, .ok (.str "pa"))]).callbacks 1
      = some ⟨some (some (.ok (.ok (.str "pa")))), some none⟩ ∧
    lookupA (deliverAll
        (sendAll (Context.mk [] 0 [] [])
          [⟨"r", "a", [], .null, ⟨some none, some none⟩⟩,
           ⟨"r", "b", [], .null, ⟨some none, some none⟩⟩])
        [(2, .ok (.str "pb")), (1, .ok (.str "pa"))]).callbacks 2
      = some ⟨some (some (.ok (.ok (.str "pb")))), some none⟩ := by
  have h := send_message_correlates_out_of_order_responses
    (Context.mk [] 0 [] [])
    [⟨"r", "a", [], .null, ⟨some none, some none⟩⟩,
     ⟨"r", "b", [], .null, ⟨some none, some none⟩⟩]
    (by intro k hkm; cases hkm) (by decide) (by decide)
    [.ok (.str "pa"), .ok (.str "pb")] rfl
    [(2, .ok (.str "pb")), (1, .ok (.str "pa"))]
    (List.Perm.swap ((1 : Int), (Except.ok (Value.str "pa") : Except ErrorMessage Value))
      ((2 : Int), (Except.ok (Value.str "pb") : Except ErrorMessage Value)) [])
  exact ⟨by decide, h.2.2.2 0 (by decide) (by decide), h.2.2.2 1 (by decide) (by decide)⟩

end PlaywrightRust
